import Mathlib

/-!
# Shallow embedding of the `ssimulacra2` Rust crate

This file embeds the core of the `imazen/ssimulacra2` repository in Lean 4 and
settles a list of claims about it.

Conventions of the embedding:

* `f32`/`f64` values are modelled as exact numbers.  Computable parts of the
  pipeline are stated over a generic `LinearOrderedField` (instantiated at `ℚ`
  for decidable witnesses); the transcendental tail ends (`cbrt`, `sqrt`,
  `powf`) live in `ℝ`.  SIMD lanes compute the same per-element expressions as
  the scalar tails, so in exact arithmetic a lane-blocked scan collapses to the
  plain element-order scan; wherever that collapse is used it is noted at the
  definition.
* `Vec<f32>` is `List α`; `[Vec<f32>; 3]` is the `Planes` structure below.
* Functions of the crate that live in files absent from the provided sources
  (`lib.rs`, `blur/gaussian.rs`, the build-generated blur coefficients) are
  modelled from the specification; each such definition carries a doc comment
  starting with `Modelled from the spec:`.

Source references are to files under `src/ssimulacra2/src/`.
-/

/-! ## Recursive-Gaussian blur coefficients

The numeric coefficients `MUL_IN_k`, `MUL_PREV_k`, `MUL_PREV2_k`,
`VERT_MUL_IN_k`, `VERT_MUL_PREV_k` are generated at build time
(`include!(concat!(env!("OUT_DIR"), "/recursive_gaussian.rs"))` in
`blur/simd_gaussian.rs`); the generator is not among the provided sources, so
the coefficients are kept symbolic in a structure.  `RADIUS = 5` is fixed by
the spec (§4.5). -/

/-- The nine horizontal and six vertical IIR coefficients of the three-pole
recursive Gaussian (`consts::MUL_*` in `blur/simd_gaussian.rs`). -/
structure GaussConsts (α : Type) where
  mul_in_1 : α
  mul_in_3 : α
  mul_in_5 : α
  mul_prev_1 : α
  mul_prev_3 : α
  mul_prev_5 : α
  mul_prev2_1 : α
  mul_prev2_3 : α
  mul_prev2_5 : α
  vert_mul_in_1 : α
  vert_mul_in_3 : α
  vert_mul_in_5 : α
  vert_mul_prev_1 : α
  vert_mul_prev_3 : α
  vert_mul_prev_5 : α

/-- `consts::RADIUS` (spec §4.5: the one-sided boundary support is 5). -/
def RADIUS : ℕ := 5

variable {α : Type} [LinearOrderedField α]

/-- Reading `input[i]` with the bounds guard of
`SimdGaussian::horizontal_row` (`blur/simd_gaussian.rs:89-98`): an index that
is negative or past the end reads as `0`. -/
def sampleAt (input : List α) (i : ℤ) : α :=
  if 0 ≤ i then input.getD i.toNat 0 else 0

/-- The running state of one horizontal IIR scan: the two delayed outputs of
each of the three poles, plus the emitted outputs so far. -/
structure RowState (α : Type) where
  prev1 : α
  prev3 : α
  prev5 : α
  prev2_1 : α
  prev2_3 : α
  prev2_5 : α
  out : List α

/-- One iteration of the `while n < width` loop of
`SimdGaussian::horizontal_row` (`blur/simd_gaussian.rs:86-124`): sample
`input[n-RADIUS-1]` and `input[n+RADIUS-1]` (zero out of range), update the
three poles, and emit `out_1 + out_3 + out_5` when `n ≥ 0`. -/
def hStep (c : GaussConsts α) (input : List α) (s : RowState α) (n : ℤ) :
    RowState α :=
  let sum := sampleAt input (n - (RADIUS : ℤ) - 1) + sampleAt input (n + (RADIUS : ℤ) - 1)
  let out1 := c.mul_prev_1 * s.prev1 + (c.mul_prev2_1 * s.prev2_1 + sum * c.mul_in_1)
  let out3 := c.mul_prev_3 * s.prev3 + (c.mul_prev2_3 * s.prev2_3 + sum * c.mul_in_3)
  let out5 := c.mul_prev_5 * s.prev5 + (c.mul_prev2_5 * s.prev2_5 + sum * c.mul_in_5)
  { prev1 := out1, prev3 := out3, prev5 := out5
    prev2_1 := s.prev1, prev2_3 := s.prev3, prev2_5 := s.prev5
    out := if 0 ≤ n then s.out ++ [out1 + out3 + out5] else s.out }

/-- The all-zero initial state (`blur/simd_gaussian.rs:78-83`). -/
def hInit : RowState α :=
  { prev1 := 0, prev3 := 0, prev5 := 0, prev2_1 := 0, prev2_3 := 0, prev2_5 := 0
    out := [] }

/-- State of the horizontal scan after its first `k` iterations; the scan
starts at `n = -RADIUS + 1 = -4` (`blur/simd_gaussian.rs:85`). -/
def hStateAfter (c : GaussConsts α) (input : List α) (k : ℕ) : RowState α :=
  (List.range k).foldl (fun s (j : ℕ) => hStep c input s ((j : ℤ) - 4)) hInit

/-- `SimdGaussian::horizontal_row` (`blur/simd_gaussian.rs:74-125`): the scan
runs `n = -4, …, width - 1`, which is `width + 4` iterations. -/
def horizontalRow (c : GaussConsts α) (input : List α) (width : ℕ) : List α :=
  (hStateAfter c input (width + 4)).out

/-- The closed per-pole recurrence of the spec (§4.5, claim C3):
`out_k(n) = (input[n-6] + input[n+4])·MUL_IN_k + out_k(n-1)·MUL_PREV_k +
out_k(n-2)·MUL_PREV2_k`, with `out_k(n) = 0` before the scan start `n = -4`. -/
def pole (input : List α) (mIn mPrev mPrev2 : α) (n : ℤ) : α :=
  if h : n < -4 then 0
  else
    (sampleAt input (n - 6) + sampleAt input (n + 4)) * mIn
      + pole input mIn mPrev mPrev2 (n - 1) * mPrev
      + pole input mIn mPrev mPrev2 (n - 2) * mPrev2
termination_by (n + 5).toNat
decreasing_by
  · omega
  · omega

theorem pole_of_lt (input : List α) (mIn mPrev mPrev2 : α) {n : ℤ} (h : n < -4) :
    pole input mIn mPrev mPrev2 n = 0 := by
  rw [pole, dif_pos h]

theorem pole_of_ge (input : List α) (mIn mPrev mPrev2 : α) {n : ℤ} (h : ¬n < -4) :
    pole input mIn mPrev mPrev2 n =
      (sampleAt input (n - 6) + sampleAt input (n + 4)) * mIn
        + pole input mIn mPrev mPrev2 (n - 1) * mPrev
        + pole input mIn mPrev mPrev2 (n - 2) * mPrev2 := by
  rw [pole, dif_neg h]

/-- The sum of the three poles: the value the scan emits at index `n`. -/
def poleTotal (c : GaussConsts α) (input : List α) (n : ℤ) : α :=
  pole input c.mul_in_1 c.mul_prev_1 c.mul_prev2_1 n
    + pole input c.mul_in_3 c.mul_prev_3 c.mul_prev2_3 n
    + pole input c.mul_in_5 c.mul_prev_5 c.mul_prev2_5 n

theorem hStateAfter_succ (c : GaussConsts α) (input : List α) (k : ℕ) :
    hStateAfter c input (k + 1) =
      hStep c input (hStateAfter c input k) ((k : ℤ) - 4) := by
  unfold hStateAfter
  rw [List.range_succ, List.foldl_append, List.foldl_cons, List.foldl_nil]

/-- The recurrence unfolding of `pole` at an index inside the scan. -/
theorem pole_step (input : List α) (mIn mPrev mPrev2 : α) {n : ℤ} (h : -4 ≤ n) :
    pole input mIn mPrev mPrev2 n =
      (sampleAt input (n - 6) + sampleAt input (n + 4)) * mIn
        + pole input mIn mPrev mPrev2 (n - 1) * mPrev
        + pole input mIn mPrev mPrev2 (n - 2) * mPrev2 :=
  pole_of_ge input mIn mPrev mPrev2 (by omega)

/-- Loop invariant of the horizontal scan: after `k` iterations the pole
states hold the spec recurrence values at `k - 5` and `k - 6`, and the output
holds the emitted totals for indices `0, …, k - 5`. -/
theorem hStateAfter_spec (c : GaussConsts α) (input : List α) (k : ℕ) :
    hStateAfter c input k =
      { prev1 := pole input c.mul_in_1 c.mul_prev_1 c.mul_prev2_1 ((k : ℤ) - 5)
        prev3 := pole input c.mul_in_3 c.mul_prev_3 c.mul_prev2_3 ((k : ℤ) - 5)
        prev5 := pole input c.mul_in_5 c.mul_prev_5 c.mul_prev2_5 ((k : ℤ) - 5)
        prev2_1 := pole input c.mul_in_1 c.mul_prev_1 c.mul_prev2_1 ((k : ℤ) - 6)
        prev2_3 := pole input c.mul_in_3 c.mul_prev_3 c.mul_prev2_3 ((k : ℤ) - 6)
        prev2_5 := pole input c.mul_in_5 c.mul_prev_5 c.mul_prev2_5 ((k : ℤ) - 6)
        out := (List.range (k - 4)).map (fun (n : ℕ) => poleTotal c input (n : ℤ)) } := by
  induction k with
  | zero =>
      simp only [hStateAfter, List.range_zero, List.foldl_nil, hInit, RowState.mk.injEq]
      norm_num
      exact ⟨(pole_of_lt _ _ _ _ (by norm_num)).symm,
        (pole_of_lt _ _ _ _ (by norm_num)).symm,
        (pole_of_lt _ _ _ _ (by norm_num)).symm,
        (pole_of_lt _ _ _ _ (by norm_num)).symm,
        (pole_of_lt _ _ _ _ (by norm_num)).symm,
        (pole_of_lt _ _ _ _ (by norm_num)).symm⟩
  | succ k ih =>
      rw [hStateAfter_succ, ih]
      have hR : (RADIUS : ℤ) = 5 := by norm_num [RADIUS]
      have hn : (-4 : ℤ) ≤ (k : ℤ) - 4 := by omega
      have eL : ((k : ℤ) - 4) - 5 - 1 = ((k : ℤ) - 4) - 6 := by ring
      have eR : ((k : ℤ) - 4) + 5 - 1 = ((k : ℤ) - 4) + 4 := by ring
      have e1 : ((k : ℤ) - 4) - 1 = (k : ℤ) - 5 := by ring
      have e2 : ((k : ℤ) - 4) - 2 = (k : ℤ) - 6 := by ring
      have p1 := pole_step input c.mul_in_1 c.mul_prev_1 c.mul_prev2_1 hn
      have p3 := pole_step input c.mul_in_3 c.mul_prev_3 c.mul_prev2_3 hn
      have p5 := pole_step input c.mul_in_5 c.mul_prev_5 c.mul_prev2_5 hn
      rw [e1, e2] at p1 p3 p5
      simp only [hStep, hR, eL, eR]
      have eK5 : ((k + 1 : ℕ) : ℤ) - 5 = (k : ℤ) - 4 := by push_cast; ring
      have eK6 : ((k + 1 : ℕ) : ℤ) - 6 = (k : ℤ) - 5 := by push_cast; ring
      simp only [RowState.mk.injEq, eK5, eK6]
      refine ⟨?_, ?_, ?_, trivial, trivial, trivial, ?_⟩
      · rw [p1]; ring
      · rw [p3]; ring
      · rw [p5]; ring
      · by_cases hk : 4 ≤ k
        · rw [if_pos (by omega : (0 : ℤ) ≤ (k : ℤ) - 4)]
          have : k + 1 - 4 = (k - 4) + 1 := by omega
          rw [this, List.range_succ, List.map_append]
          have ecast : ((k - 4 : ℕ) : ℤ) = (k : ℤ) - 4 := by omega
          simp only [List.map_cons, List.map_nil, ecast]
          have t1 : poleTotal c input ((k : ℤ) - 4) =
              c.mul_prev_1 * pole input c.mul_in_1 c.mul_prev_1 c.mul_prev2_1 ((k : ℤ) - 5)
                + (c.mul_prev2_1 * pole input c.mul_in_1 c.mul_prev_1 c.mul_prev2_1 ((k : ℤ) - 6)
                  + (sampleAt input ((k : ℤ) - 4 - 6) + sampleAt input ((k : ℤ) - 4 + 4)) * c.mul_in_1)
              + (c.mul_prev_3 * pole input c.mul_in_3 c.mul_prev_3 c.mul_prev2_3 ((k : ℤ) - 5)
                + (c.mul_prev2_3 * pole input c.mul_in_3 c.mul_prev_3 c.mul_prev2_3 ((k : ℤ) - 6)
                  + (sampleAt input ((k : ℤ) - 4 - 6) + sampleAt input ((k : ℤ) - 4 + 4)) * c.mul_in_3))
              + (c.mul_prev_5 * pole input c.mul_in_5 c.mul_prev_5 c.mul_prev2_5 ((k : ℤ) - 5)
                + (c.mul_prev2_5 * pole input c.mul_in_5 c.mul_prev_5 c.mul_prev2_5 ((k : ℤ) - 6)
                  + (sampleAt input ((k : ℤ) - 4 - 6) + sampleAt input ((k : ℤ) - 4 + 4)) * c.mul_in_5)) := by
            rw [poleTotal, p1, p3, p5]; ring
          rw [t1]
        · rw [if_neg (by omega : ¬(0 : ℤ) ≤ (k : ℤ) - 4)]
          have : k + 1 - 4 = k - 4 := by omega
          rw [this]

/-- The horizontal scan computes exactly the spec's three-pole recurrence at
every emitted index. -/
theorem horizontalRow_eq_map (c : GaussConsts α) (input : List α) (width : ℕ) :
    horizontalRow c input width =
      (List.range width).map (fun (n : ℕ) => poleTotal c input (n : ℤ)) := by
  rw [horizontalRow, hStateAfter_spec]
  simp

theorem getD_range_map {β : Type} (f : ℕ → β) (d : β) {n w : ℕ} (h : n < w) :
    ((List.range w).map f).getD n d = f n := by
  rw [List.getD_eq_getElem?_getD, List.getElem?_map, List.getElem?_range h]
  rfl

/-- C3: for every input row, the horizontal blur pass writes output indices
`0 … width-1` only (the produced row has length `width`), and `output[n]` is
`out_1 + out_3 + out_5` where each pole follows the primed IIR recurrence of
the spec with zero-initialised state, zero out-of-range reads, and scan start
`n = -RADIUS + 1`. -/
theorem c3_horizontal_row_recurrence (c : GaussConsts α) (input : List α) (width : ℕ) :
    (horizontalRow c input width).length = width ∧
      ∀ n : ℕ, n < width →
        (horizontalRow c input width).getD n 0 =
          pole input c.mul_in_1 c.mul_prev_1 c.mul_prev2_1 (n : ℤ)
            + pole input c.mul_in_3 c.mul_prev_3 c.mul_prev2_3 (n : ℤ)
            + pole input c.mul_in_5 c.mul_prev_5 c.mul_prev2_5 (n : ℤ) := by
  rw [horizontalRow_eq_map]
  constructor
  · simp
  · intro n hn
    rw [getD_range_map _ _ hn]
    rfl

/-- Concrete coefficient values used by the witnesses below. -/
def gcw : GaussConsts ℚ :=
  { mul_in_1 := 1, mul_in_3 := 2, mul_in_5 := 3
    mul_prev_1 := 1, mul_prev_3 := 1, mul_prev_5 := 1
    mul_prev2_1 := 1, mul_prev2_3 := 1, mul_prev2_5 := 1
    vert_mul_in_1 := 1, vert_mul_in_3 := 1, vert_mul_in_5 := 1
    vert_mul_prev_1 := 1, vert_mul_prev_3 := 1, vert_mul_prev_5 := 1 }

theorem c3_horizontal_row_recurrence_witness :
    (horizontalRow gcw [1, 0, 2] 3).length = 3 ∧
      (horizontalRow gcw [1, 0, 2] 3).getD 0 0 =
        pole [1, 0, 2] gcw.mul_in_1 gcw.mul_prev_1 gcw.mul_prev2_1 0
          + pole [1, 0, 2] gcw.mul_in_3 gcw.mul_prev_3 gcw.mul_prev2_3 0
          + pole [1, 0, 2] gcw.mul_in_5 gcw.mul_prev_5 gcw.mul_prev2_5 0 :=
  ⟨(c3_horizontal_row_recurrence gcw [1, 0, 2] 3).1,
    (c3_horizontal_row_recurrence gcw [1, 0, 2] 3).2 0 (by decide)⟩

theorem getD_zero_of_all_zero (l : List α) (hz : ∀ x ∈ l, x = 0) (k : ℕ) :
    l.getD k 0 = 0 := by
  rw [List.getD_eq_getElem?_getD]
  cases h : l[k]? with
  | none => rfl
  | some a =>
      obtain ⟨hk, he⟩ := List.getElem?_eq_some.mp h
      exact hz a (he ▸ List.getElem_mem hk)

theorem sampleAt_zero (input : List α) (hz : ∀ x ∈ input, x = 0) (i : ℤ) :
    sampleAt input i = 0 := by
  rw [sampleAt]
  split
  · exact getD_zero_of_all_zero input hz _
  · rfl

/-- On an all-zero row every pole value is zero. -/
theorem pole_zero_of_zero_input (input : List α) (hz : ∀ x ∈ input, x = 0)
    (mIn mPrev mPrev2 : α) (n : ℤ) : pole input mIn mPrev mPrev2 n = 0 := by
  have key : ∀ m : ℕ, ∀ n : ℤ, (n + 5).toNat ≤ m → pole input mIn mPrev mPrev2 n = 0 := by
    intro m
    induction m with
    | zero =>
        intro n hn
        exact pole_of_lt input mIn mPrev mPrev2 (by omega)
    | succ m ih =>
        intro n hn
        by_cases hlt : n < -4
        · exact pole_of_lt input mIn mPrev mPrev2 hlt
        · rw [pole_of_ge input mIn mPrev mPrev2 hlt, ih (n - 1) (by omega),
            ih (n - 2) (by omega), sampleAt_zero input hz, sampleAt_zero input hz]
          ring
  exact key ((n + 5).toNat) n le_rfl

/-- Modelled from the spec: the scalar blur backend (`blur/gaussian.rs`,
`RecursiveGaussian`) is not among the provided sources.  Per §4.5 its per-row
horizontal pass performs the same primed three-pole scan, emitting
`out_1 + out_3 + out_5` at each index `0 ≤ n < width`; this is the closed form
of that scan. -/
def scalarHorizontalRow (c : GaussConsts α) (input : List α) (width : ℕ) : List α :=
  (List.range width).map (fun (n : ℕ) => poleTotal c input (n : ℤ))

/-- C9: on a row consisting entirely of zeros, the horizontal blur pass
produces an all-zero row, both for the in-source SIMD backend
(`SimdGaussian::horizontal_row`) and for the scalar backend. -/
theorem c9_zero_row_all_zero (c : GaussConsts α) (input : List α) (width : ℕ)
    (hz : ∀ x ∈ input, x = 0) :
    horizontalRow c input width = List.replicate width 0 ∧
      scalarHorizontalRow c input width = List.replicate width 0 := by
  have htot : ∀ n : ℕ, poleTotal c input (n : ℤ) = 0 := by
    intro n
    rw [poleTotal, pole_zero_of_zero_input input hz, pole_zero_of_zero_input input hz,
      pole_zero_of_zero_input input hz]
    ring
  constructor
  · rw [horizontalRow_eq_map]
    simp [htot, List.map_const']
  · rw [scalarHorizontalRow]
    simp [htot, List.map_const']

theorem c9_zero_row_all_zero_witness :
    (∀ x ∈ ([0, 0, 0, 0] : List ℚ), x = 0) ∧
      horizontalRow gcw ([0, 0, 0, 0] : List ℚ) 4 = List.replicate 4 0 ∧
        scalarHorizontalRow gcw ([0, 0, 0, 0] : List ℚ) 4 = List.replicate 4 0 :=
  ⟨by decide,
    (c9_zero_row_all_zero gcw [0, 0, 0, 0] 4 (by decide)).1,
    (c9_zero_row_all_zero gcw [0, 0, 0, 0] 4 (by decide)).2⟩

/-! ## Multiscale pyramid dimensions (claim C4) -/

/-- Modelled from the spec: `NUM_SCALES` is defined in the crate root
(`lib.rs`, absent from the provided sources); §2 fixes the pyramid at (at
most) six scales. -/
def NUM_SCALES : ℕ := 6

/-- Modelled from the spec: `downscale_by_2` lives in the crate root (absent
from the provided sources); §4.2 fixes the output dimensions of the 2×
downscale to `(⌈w/2⌉, ⌈h/2⌉)`. -/
def dsDim (n : ℕ) : ℕ := (n + 1) / 2

/-- The per-scale dimension trace of the pyramid loop of
`Ssim2Reference::new` (`precompute.rs:101-111`, identically
`compare`, `precompute.rs:174-184`): each iteration first breaks when the
current `width < 8 || height < 8`, then (except at scale 0) downscales, and
processes the resulting dimensions. -/
def pyramidDimsGo : ℕ → ℕ × ℕ → Bool → List (ℕ × ℕ)
  | 0, _, _ => []
  | fuel + 1, d, first =>
    if d.1 < 8 ∨ d.2 < 8 then []
    else
      let d' := if first then d else (dsDim d.1, dsDim d.2)
      d' :: pyramidDimsGo fuel d' false

/-- Dimensions processed at the successive scales of the pyramid, starting
from an input of dimensions `w × h`. -/
def pyramidDims (w h : ℕ) : List (ℕ × ℕ) :=
  pyramidDimsGo NUM_SCALES (w, h) true

theorem pyramidDimsGo_zero (d : ℕ × ℕ) (first : Bool) :
    pyramidDimsGo 0 d first = [] := rfl

theorem pyramidDimsGo_succ (fuel : ℕ) (d : ℕ × ℕ) (first : Bool) :
    pyramidDimsGo (fuel + 1) d first =
      if d.1 < 8 ∨ d.2 < 8 then []
      else
        (if first then d else (dsDim d.1, dsDim d.2))
          :: pyramidDimsGo fuel (if first then d else (dsDim d.1, dsDim d.2)) false := rfl

/-- C4 (counterexample): the claim "if the current scale's width ≤ 8 or
height ≤ 8 then no further 2× downscale is applied" fails on an 8×8 input:
the scale-0 entry (8, 8) satisfies `width ≤ 8` yet a further downscale to
(4, 4) is applied (`pyramidDims 8 8 = [(8, 8), (4, 4)]`), because the loop
breaks only on `width < 8 || height < 8`. -/
theorem c4_pyramid_stop_claim_counterexample :
    ¬(∀ i : ℕ, i + 1 < (pyramidDims 8 8).length →
        ¬(((pyramidDims 8 8).getD i (0, 0)).1 ≤ 8 ∨
          ((pyramidDims 8 8).getD i (0, 0)).2 ≤ 8)) :=
  fun hcl => (hcl 0 (by decide)) (by decide)

/-- C4 (amended): if the current scale's width < 8 or height < 8, the pyramid
stops before applying another downscale: every non-final entry of the
dimension trace has width ≥ 8 and height ≥ 8. -/
theorem c4_pyramid_stops_amended (w h i : ℕ)
    (hi : i + 1 < (pyramidDims w h).length) :
    ¬(((pyramidDims w h).getD i (0, 0)).1 < 8 ∨
      ((pyramidDims w h).getD i (0, 0)).2 < 8) := by
  suffices key : ∀ (fuel : ℕ) (d : ℕ × ℕ) (first : Bool) (i : ℕ),
      i + 1 < (pyramidDimsGo fuel d first).length →
      ¬(((pyramidDimsGo fuel d first).getD i (0, 0)).1 < 8 ∨
        ((pyramidDimsGo fuel d first).getD i (0, 0)).2 < 8) by
    exact key NUM_SCALES (w, h) true i hi
  intro fuel
  induction fuel with
  | zero =>
      intro d first i hi
      rw [pyramidDimsGo_zero] at hi
      simp at hi
  | succ fuel ih =>
      intro d first i hi
      rw [pyramidDimsGo_succ] at hi ⊢
      by_cases hd : d.1 < 8 ∨ d.2 < 8
      · rw [if_pos hd] at hi
        simp at hi
      · rw [if_neg hd] at hi ⊢
        cases i with
        | zero =>
            rw [List.getD_cons_zero]
            intro hcon
            rcases fuel with _ | fuel
            · rw [pyramidDimsGo_zero] at hi
              simp at hi
            · rw [pyramidDimsGo_succ, if_pos hcon] at hi
              simp at hi
        | succ i =>
            rw [List.getD_cons_succ]
            rw [List.length_cons] at hi
            exact ih _ false i (by omega)

theorem c4_pyramid_stops_amended_witness :
    0 + 1 < (pyramidDims 9 9).length ∧
      ¬(((pyramidDims 9 9).getD 0 (0, 0)).1 < 8 ∨
        ((pyramidDims 9 9).getD 0 (0, 0)).2 < 8) :=
  ⟨by decide, c4_pyramid_stops_amended 9 9 0 (by decide)⟩

/-! ## sRGB transfer (claim C8) -/

/-- `srgb_to_linear` (`input.rs:86-92`): the standard sRGB transfer function.
The branch condition is on the exact input value; the transfer value lives in
`ℝ` because of the 2.4 power. -/
noncomputable def srgb_to_linear (s : ℚ) : ℝ :=
  if s ≤ 0.04045 then (s : ℝ) / 12.92
  else (((s : ℝ) + 0.055) / 1.055) ^ (2.4 : ℝ)

/-- `SRGB_TO_LINEAR_LUT` (`input.rs:109-115`): the 256-entry table whose
entry `i` is `srgb_to_linear (i / 255)`. -/
noncomputable def SRGB_TO_LINEAR_LUT : List ℝ :=
  (List.range 256).map (fun (i : ℕ) => srgb_to_linear ((i : ℚ) / 255))

/-- `srgb_u8_to_linear` (`input.rs:96-99`): table lookup at index `v`. -/
noncomputable def srgb_u8_to_linear (v : Fin 256) : ℝ :=
  SRGB_TO_LINEAR_LUT.getD (v : ℕ) 0

/-- C8: for every 8-bit value `v`, the lookup-table path `srgb_u8_to_linear`
returns the same value as applying the direct sRGB transfer function to
`v / 255`. -/
theorem c8_srgb_lut_matches_direct (v : Fin 256) :
    srgb_u8_to_linear v = srgb_to_linear ((v : ℚ) / 255) := by
  rw [srgb_u8_to_linear, SRGB_TO_LINEAR_LUT, getD_range_map _ _ v.isLt]

/-! ## Linear RGB → XYB (claim C7)

Constants from `xyb_simd.rs:13-30`. -/

def kM02 : ℚ := 0.078
def kM00 : ℚ := 0.30
def kM01 : ℚ := 1 - kM02 - kM00
def kM12 : ℚ := 0.078
def kM10 : ℚ := 0.23
def kM11 : ℚ := 1 - kM12 - kM10
def kM20 : ℚ := 0.24342269
def kM21 : ℚ := 0.20476745
def kM22 : ℚ := 1 - kM20 - kM21
def kB0 : ℚ := 0.0037930734

/-- `opsin_absorbance_scalar` (`xyb_simd.rs:428-453`): the `mul_add` chains
`M[i0].mul_add(r, M[i1].mul_add(g, M[i2].mul_add(b, bias)))`; the SIMD lanes
(`xyb_simd.rs:302-304`, `377-379`) compute the same chain per lane. -/
def opsinAbsorbance (p : ℚ × ℚ × ℚ) : ℚ × ℚ × ℚ :=
  (kM00 * p.1 + (kM01 * p.2.1 + (kM02 * p.2.2 + kB0)),
    kM10 * p.1 + (kM11 * p.2.1 + (kM12 * p.2.2 + kB0)),
    kM20 * p.1 + (kM21 * p.2.1 + (kM22 * p.2.2 + kB0)))

/-- The negative clamp `if *m < 0.0 { *m = 0.0 }` (`xyb_simd.rs:417-419`;
the SIMD lanes use `max(zero)`). -/
def clampNeg (m : ℚ) : ℚ := if m < 0 then 0 else m

theorem clampNeg_eq_max (x : ℚ) : clampNeg x = max 0 x := by
  rw [clampNeg]
  rcases lt_or_le x 0 with hx | hx
  · rw [if_pos hx, max_eq_left hx.le]
  · rw [if_neg (not_lt.mpr hx), max_eq_right hx]

/-- `cbrtf_fast` (`xyb_simd.rs:231-247`), idealised as the exact real cube
root on nonnegative inputs: the Newton-refined FreeBSD routine is required by
spec §4.3 to stay within 1 ULP of `cbrt`, and every call site applies it to a
clamped (nonnegative) value or to the positive bias. -/
noncomputable def rcbrt (q : ℚ) : ℝ := (q : ℝ) ^ ((1 : ℝ) / 3)

/-- The per-pixel body of `linear_rgb_to_xyb_simd` (`xyb_simd.rs:256-424`):
opsin absorbance, negative clamp, cube root plus the precomputed
`absorbance_bias = -cbrt(bias)`, then the X/Y/B combination
(`mixed_to_xyb_scalar`, `xyb_simd.rs:456-462`).  The 16-, 8- and 1-pixel
paths apply this same per-element computation. -/
noncomputable def linearRgbToXybPixel (p : ℚ × ℚ × ℚ) : ℝ × ℝ × ℝ :=
  let m := opsinAbsorbance p
  let mixed0 := rcbrt (clampNeg m.1) + -rcbrt kB0
  let mixed1 := rcbrt (clampNeg m.2.1) + -rcbrt kB0
  let mixed2 := rcbrt (clampNeg m.2.2) + -rcbrt kB0
  (0.5 * (mixed0 - mixed1), 0.5 * (mixed0 + mixed1), mixed2)

/-- `linear_rgb_to_xyb_simd` on a full pixel slice. -/
noncomputable def linear_rgb_to_xyb (input : List (ℚ × ℚ × ℚ)) : List (ℝ × ℝ × ℝ) :=
  input.map linearRgbToXybPixel

/-- The transform exactly as claim C7 states it, with the claim's matrix
entry `M[2][2] = 0.55181986`. -/
noncomputable def xybPixelClaimed (p : ℚ × ℚ × ℚ) : ℝ × ℝ × ℝ :=
  let m0 := max 0 (0.30 * p.1 + 0.622 * p.2.1 + 0.078 * p.2.2 + 0.0037930734)
  let m1 := max 0 (0.23 * p.1 + 0.692 * p.2.1 + 0.078 * p.2.2 + 0.0037930734)
  let m2 := max 0 (0.24342269 * p.1 + 0.20476745 * p.2.1 + 0.55181986 * p.2.2 + 0.0037930734)
  let mixed0 := rcbrt m0 - rcbrt 0.0037930734
  let mixed1 := rcbrt m1 - rcbrt 0.0037930734
  let mixed2 := rcbrt m2 - rcbrt 0.0037930734
  (0.5 * (mixed0 - mixed1), 0.5 * (mixed0 + mixed1), mixed2)

/-- The claimed transform with the third matrix row's last entry corrected to
`0.55180986 = 1 - 0.24342269 - 0.20476745`, which is what the code computes
as `K_M22` (`xyb_simd.rs:21`). -/
noncomputable def xybPixelAmended (p : ℚ × ℚ × ℚ) : ℝ × ℝ × ℝ :=
  let m0 := max 0 (0.30 * p.1 + 0.622 * p.2.1 + 0.078 * p.2.2 + 0.0037930734)
  let m1 := max 0 (0.23 * p.1 + 0.692 * p.2.1 + 0.078 * p.2.2 + 0.0037930734)
  let m2 := max 0 (0.24342269 * p.1 + 0.20476745 * p.2.1 + 0.55180986 * p.2.2 + 0.0037930734)
  let mixed0 := rcbrt m0 - rcbrt 0.0037930734
  let mixed1 := rcbrt m1 - rcbrt 0.0037930734
  let mixed2 := rcbrt m2 - rcbrt 0.0037930734
  (0.5 * (mixed0 - mixed1), 0.5 * (mixed0 + mixed1), mixed2)

theorem rcbrt_lt_rcbrt {a b : ℚ} (ha : 0 ≤ a) (hab : a < b) : rcbrt a < rcbrt b := by
  rw [rcbrt, rcbrt]
  exact Real.rpow_lt_rpow (by exact_mod_cast ha) (by exact_mod_cast hab) (by norm_num)

/-- C7 (counterexample): at the pure-blue pixel `(0, 0, 1)` the code's
transform differs from the claim's formula, because the code's matrix entry
`K_M22 = 1 - 0.24342269 - 0.20476745 = 0.55180986` is not the claim's
`0.55181986`.  The `B` outputs differ by strict monotonicity of the cube
root. -/
theorem c7_xyb_transform_counterexample :
    linearRgbToXybPixel (0, 0, 1) ≠ xybPixelClaimed (0, 0, 1) := by
  intro heq
  have h3 := congrArg (fun t : ℝ × ℝ × ℝ => t.2.2) heq
  simp only [linearRgbToXybPixel, xybPixelClaimed, opsinAbsorbance] at h3
  rw [show clampNeg (kM20 * 0 + (kM21 * 0 + (kM22 * 1 + kB0))) = kM22 + kB0 by
      rw [clampNeg_eq_max]
      rw [max_eq_right (by norm_num [kM20, kM21, kM22, kB0])]
      ring] at h3
  rw [show max (0 : ℚ)
        (0.24342269 * 0 + 0.20476745 * 0 + 0.55181986 * 1 + 0.0037930734) =
        (0.5556129334 : ℚ) by
      rw [max_eq_right (by norm_num)]
      norm_num] at h3
  have hlt : rcbrt (kM22 + kB0) < rcbrt 0.5556129334 :=
    rcbrt_lt_rcbrt (by norm_num [kM20, kM21, kM22, kB0])
      (by norm_num [kM20, kM21, kM22, kB0])
  have heq2 : rcbrt (kM22 + kB0) = rcbrt 0.5556129334 := by
    have hb : rcbrt kB0 = rcbrt 0.0037930734 := by rw [kB0]
    nlinarith [h3, hb]
  exact absurd heq2 (ne_of_lt hlt)

/-- C7 (amended): for every pixel `(r, g, b)`, the transform computes
`m = max(0, M·rgb + b)` with the matrix of the claim except that
`M[2][2] = 0.55180986`, then `mixed_i = ∛m_i - ∛b_i`, and outputs
`X = 0.5·(mixed_0 - mixed_1)`, `Y = 0.5·(mixed_0 + mixed_1)`,
`B = mixed_2`. -/
theorem c7_xyb_transform_amended (p : ℚ × ℚ × ℚ) :
    linearRgbToXybPixel p = xybPixelAmended p := by
  obtain ⟨r, g, b⟩ := p
  have hA : clampNeg (kM00 * r + (kM01 * g + (kM02 * b + kB0))) =
      max 0 ((0.30 : ℚ) * r + 0.622 * g + 0.078 * b + 0.0037930734) := by
    rw [clampNeg_eq_max]
    congr 1
    simp only [kM00, kM01, kM02, kB0]
    ring
  have hB : clampNeg (kM10 * r + (kM11 * g + (kM12 * b + kB0))) =
      max 0 ((0.23 : ℚ) * r + 0.692 * g + 0.078 * b + 0.0037930734) := by
    rw [clampNeg_eq_max]
    congr 1
    simp only [kM10, kM11, kM12, kB0]
    ring
  have hC : clampNeg (kM20 * r + (kM21 * g + (kM22 * b + kB0))) =
      max 0 ((0.24342269 : ℚ) * r + 0.20476745 * g + 0.55180986 * b + 0.0037930734) := by
    rw [clampNeg_eq_max]
    congr 1
    simp only [kM20, kM21, kM22, kB0]
    ring
  have hbias : rcbrt kB0 = rcbrt 0.0037930734 := by rw [kB0]
  simp only [linearRgbToXybPixel, xybPixelAmended, opsinAbsorbance, hA, hB, hC, hbias]
  refine Prod.ext ?_ (Prod.ext ?_ ?_) <;> simp only [] <;> ring

/-! ## SSIM and edge-difference maps (`simd_ops.rs`, claims C2 and C10) -/

/-- `[Vec<f32>; 3]`: one list per channel. -/
structure Planes (α : Type) where
  p0 : List α
  p1 : List α
  p2 : List α

/-- Channel selection `planes[c]`. -/
def Planes.ch (p : Planes α) (c : Fin 3) : List α :=
  if c = 0 then p.p0 else if c = 1 then p.p1 else p.p2

/-- `C2` of the SSIM map (`simd_ops.rs:22`): `0.0009`. -/
def ssimC2 : α := 9 / 10000

/-- The per-pixel SSIM dissimilarity `d` of `ssim_map_simd`'s scalar tail
(`simd_ops.rs:170-186`); the 16-wide SIMD block (`simd_ops.rs:137-166`)
computes the same expression per lane (`mul_add a b c = a*b + c` exactly). -/
def ssimPixel (mu1 mu2 s11 s22 s12 : α) : α :=
  let mu11 := mu1 * mu1
  let mu22 := mu2 * mu2
  let mu12 := mu1 * mu2
  let mu_diff := mu1 - mu2
  let num_m := mu_diff * -mu_diff + 1
  let num_s := 2 * (s12 - mu12) + ssimC2
  let denom_s := s11 - mu11 + (s22 - mu22) + ssimC2
  max (1 - num_m * num_s / denom_s) 0

/-- Number of rows traversed by the nested `chunks_exact(width)` zips of
`ssim_map_simd` (`simd_ops.rs:34-40`): the shortest chunk count among the
five planes. -/
def ssimRows (width : ℕ) (m1 m2 s11 s22 s12 : List α) : ℕ :=
  (m1.length / width).min ((m2.length / width).min
    ((s11.length / width).min ((s22.length / width).min (s12.length / width))))

/-- The accumulation loop of `ssim_map_simd` for one channel
(`simd_ops.rs:32-187`): row-major accumulation of `d` and `d⁴`.  In exact
arithmetic the 16-pixel SIMD blocks and the scalar tail contribute the
identical per-pixel values in the identical order, so the scan is written as
one pass over each row. -/
def ssimChannelSums (width : ℕ) (m1 m2 s11 s22 s12 : List α) : α × α :=
  (List.range (ssimRows width m1 m2 s11 s22 s12)).foldl
    (fun acc (r : ℕ) =>
      (List.range width).foldl
        (fun (acc2 : α × α) (x : ℕ) =>
          (acc2.1 + ssimPixel (m1.getD (r * width + x) 0) (m2.getD (r * width + x) 0)
              (s11.getD (r * width + x) 0) (s22.getD (r * width + x) 0)
              (s12.getD (r * width + x) 0),
            acc2.2 + ssimPixel (m1.getD (r * width + x) 0) (m2.getD (r * width + x) 0)
              (s11.getD (r * width + x) 0) (s22.getD (r * width + x) 0)
              (s12.getD (r * width + x) 0) ^ 4)) acc)
    (0, 0)

/-- `ssim_map_simd` (`simd_ops.rs:13-194`): per channel, the pair
`(one_per_pixels · S1, √√(one_per_pixels · S4))` with
`one_per_pixels = 1 / (width · height)`. -/
noncomputable def ssim_map (width height : ℕ) (m1 m2 s11 s22 s12 : Planes ℝ) :
    Fin 3 → ℝ × ℝ := fun c =>
  let s := ssimChannelSums width (m1.ch c) (m2.ch c) (s11.ch c) (s22.ch c) (s12.ch c)
  let one_per_pixels : ℝ := 1 / ((width * height : ℕ) : ℝ)
  (one_per_pixels * s.1, Real.sqrt (Real.sqrt (one_per_pixels * s.2)))

/-- The per-pixel edge difference `d1` of `edge_diff_map_simd`'s scalar tail
(`simd_ops.rs:329-339`); the SIMD block (`simd_ops.rs:299-310`) computes the
same expression per lane. -/
def edgePixel (p1v mu1v p2v mu2v : α) : α :=
  (1 + |p2v - mu2v|) / (1 + |p1v - mu1v|) - 1

/-- Rows traversed by the `chunks_exact(width)` zips of `edge_diff_map_simd`
(`simd_ops.rs:216-220`). -/
def edgeRows (width : ℕ) (i1 i2 m1 m2 : List α) : ℕ :=
  (i1.length / width).min ((i2.length / width).min
    ((m1.length / width).min (m2.length / width)))

/-- The accumulation loop of `edge_diff_map_simd` for one channel
(`simd_ops.rs:213-340`): row-major accumulation of
`artifact, artifact⁴, detail_lost, detail_lost⁴`. -/
def edgeChannelSums (width : ℕ) (i1 m1 i2 m2 : List α) : α × α × α × α :=
  (List.range (edgeRows width i1 i2 m1 m2)).foldl
    (fun acc (r : ℕ) =>
      (List.range width).foldl
        (fun (acc2 : α × α × α × α) (x : ℕ) =>
          (acc2.1 + max (edgePixel (i1.getD (r * width + x) 0) (m1.getD (r * width + x) 0)
              (i2.getD (r * width + x) 0) (m2.getD (r * width + x) 0)) 0,
            acc2.2.1 + max (edgePixel (i1.getD (r * width + x) 0) (m1.getD (r * width + x) 0)
              (i2.getD (r * width + x) 0) (m2.getD (r * width + x) 0)) 0 ^ 4,
            acc2.2.2.1 + max (-edgePixel (i1.getD (r * width + x) 0) (m1.getD (r * width + x) 0)
              (i2.getD (r * width + x) 0) (m2.getD (r * width + x) 0)) 0,
            acc2.2.2.2 + max (-edgePixel (i1.getD (r * width + x) 0) (m1.getD (r * width + x) 0)
              (i2.getD (r * width + x) 0) (m2.getD (r * width + x) 0)) 0 ^ 4)) acc)
    (0, 0, 0, 0)

/-- `edge_diff_map_simd` (`simd_ops.rs:199-350`): per channel, the quadruple
`(opp · A1, √√(opp · A4), opp · D1, √√(opp · D4))`. -/
noncomputable def edge_diff_map (width height : ℕ) (img1 mu1 img2 mu2 : Planes ℝ) :
    Fin 3 → ℝ × ℝ × ℝ × ℝ := fun c =>
  let s := edgeChannelSums width (img1.ch c) (mu1.ch c) (img2.ch c) (mu2.ch c)
  let one_per_pixels : ℝ := 1 / ((width * height : ℕ) : ℝ)
  (one_per_pixels * s.1, Real.sqrt (Real.sqrt (one_per_pixels * s.2.1)),
    one_per_pixels * s.2.2.1, Real.sqrt (Real.sqrt (one_per_pixels * s.2.2.2)))

theorem foldl_range_pair_add (f g : ℕ → α) (n : ℕ) (p : α × α) :
    (List.range n).foldl (fun (q : α × α) (i : ℕ) => (q.1 + f i, q.2 + g i)) p =
      (p.1 + ∑ i ∈ Finset.range n, f i, p.2 + ∑ i ∈ Finset.range n, g i) := by
  induction n with
  | zero => simp
  | succ n ih =>
      rw [List.range_succ, List.foldl_append, ih, List.foldl_cons, List.foldl_nil,
        Finset.sum_range_succ, Finset.sum_range_succ]
      simp [add_assoc]

theorem foldl_range_quad_add (f g f' g' : ℕ → α) (n : ℕ) (p : α × α × α × α) :
    (List.range n).foldl
        (fun (q : α × α × α × α) (i : ℕ) =>
          (q.1 + f i, q.2.1 + g i, q.2.2.1 + f' i, q.2.2.2 + g' i)) p =
      (p.1 + ∑ i ∈ Finset.range n, f i, p.2.1 + ∑ i ∈ Finset.range n, g i,
        p.2.2.1 + ∑ i ∈ Finset.range n, f' i, p.2.2.2 + ∑ i ∈ Finset.range n, g' i) := by
  induction n with
  | zero => simp
  | succ n ih =>
      rw [List.range_succ, List.foldl_append, ih, List.foldl_cons, List.foldl_nil,
        Finset.sum_range_succ, Finset.sum_range_succ, Finset.sum_range_succ,
        Finset.sum_range_succ]
      simp [add_assoc]

/-- The channel accumulation expands to plain double sums. -/
theorem ssimChannelSums_eq_sums (width : ℕ) (m1 m2 s11 s22 s12 : List α) :
    ssimChannelSums width m1 m2 s11 s22 s12 =
      (∑ r ∈ Finset.range (ssimRows width m1 m2 s11 s22 s12),
        ∑ x ∈ Finset.range width,
          ssimPixel (m1.getD (r * width + x) 0) (m2.getD (r * width + x) 0)
            (s11.getD (r * width + x) 0) (s22.getD (r * width + x) 0)
            (s12.getD (r * width + x) 0),
       ∑ r ∈ Finset.range (ssimRows width m1 m2 s11 s22 s12),
        ∑ x ∈ Finset.range width,
          ssimPixel (m1.getD (r * width + x) 0) (m2.getD (r * width + x) 0)
            (s11.getD (r * width + x) 0) (s22.getD (r * width + x) 0)
            (s12.getD (r * width + x) 0) ^ 4) := by
  rw [ssimChannelSums]
  simp only [foldl_range_pair_add]
  simp

/-- The edge channel accumulation expands to plain double sums. -/
theorem edgeChannelSums_eq_sums (width : ℕ) (i1 m1 i2 m2 : List α) :
    edgeChannelSums width i1 m1 i2 m2 =
      (∑ r ∈ Finset.range (edgeRows width i1 i2 m1 m2),
        ∑ x ∈ Finset.range width,
          max (edgePixel (i1.getD (r * width + x) 0) (m1.getD (r * width + x) 0)
            (i2.getD (r * width + x) 0) (m2.getD (r * width + x) 0)) 0,
       ∑ r ∈ Finset.range (edgeRows width i1 i2 m1 m2),
        ∑ x ∈ Finset.range width,
          max (edgePixel (i1.getD (r * width + x) 0) (m1.getD (r * width + x) 0)
            (i2.getD (r * width + x) 0) (m2.getD (r * width + x) 0)) 0 ^ 4,
       ∑ r ∈ Finset.range (edgeRows width i1 i2 m1 m2),
        ∑ x ∈ Finset.range width,
          max (-edgePixel (i1.getD (r * width + x) 0) (m1.getD (r * width + x) 0)
            (i2.getD (r * width + x) 0) (m2.getD (r * width + x) 0)) 0,
       ∑ r ∈ Finset.range (edgeRows width i1 i2 m1 m2),
        ∑ x ∈ Finset.range width,
          max (-edgePixel (i1.getD (r * width + x) 0) (m1.getD (r * width + x) 0)
            (i2.getD (r * width + x) 0) (m2.getD (r * width + x) 0)) 0 ^ 4) := by
  rw [edgeChannelSums]
  simp only [foldl_range_quad_add]
  simp

theorem sum_range_mul_flatten {β : Type} [AddCommMonoid β] (f : ℕ → β) (h w : ℕ) :
    ∑ r ∈ Finset.range h, ∑ x ∈ Finset.range w, f (r * w + x) =
      ∑ i ∈ Finset.range (h * w), f i := by
  induction h with
  | zero => simp
  | succ h ih =>
      rw [Finset.sum_range_succ, ih, Nat.succ_mul, Finset.sum_range_add]

/-- Casting a rational plane triple into the reals. -/
def castPlanes (p : Planes ℚ) : Planes ℝ :=
  { p0 := p.p0.map (fun (q : ℚ) => (q : ℝ))
    p1 := p.p1.map (fun (q : ℚ) => (q : ℝ))
    p2 := p.p2.map (fun (q : ℚ) => (q : ℝ)) }

theorem castPlanes_ch (p : Planes ℚ) (c : Fin 3) :
    (castPlanes p).ch c = (p.ch c).map (fun (q : ℚ) => (q : ℝ)) := by
  by_cases h0 : c = 0 <;> by_cases h1 : c = 1 <;>
    simp [Planes.ch, castPlanes, h0, h1]

theorem getD_map_cast (l : List ℚ) (i : ℕ) :
    (l.map (fun (q : ℚ) => (q : ℝ))).getD i 0 = ((l.getD i 0 : ℚ) : ℝ) := by
  rw [List.getD_eq_getElem?_getD, List.getElem?_map, List.getD_eq_getElem?_getD]
  cases l[i]? <;> simp

theorem ssimPixel_cast (a b c d e : ℚ) :
    ssimPixel (a : ℝ) (b : ℝ) (c : ℝ) (d : ℝ) (e : ℝ) =
      ((ssimPixel a b c d e : ℚ) : ℝ) := by
  simp only [ssimPixel, ssimC2]
  push_cast
  rfl

theorem edgePixel_cast (a b c d : ℚ) :
    edgePixel (a : ℝ) (b : ℝ) (c : ℝ) (d : ℝ) = ((edgePixel a b c d : ℚ) : ℝ) := by
  simp only [edgePixel]
  push_cast
  rfl

/-- The per-pixel dissimilarity exactly as claim C2 words it. -/
def claimSsimD (mu1 mu2 s11 s22 s12 : ℚ) : ℚ :=
  max 0 (1 - (1 - (mu1 - mu2) ^ 2) * (2 * (s12 - mu1 * mu2) + 9 / 10000) /
    (s11 - mu1 ^ 2 + (s22 - mu2 ^ 2) + 9 / 10000))

theorem ssimPixel_eq_claim (a b c d e : ℚ) :
    ssimPixel a b c d e = claimSsimD a b c d e := by
  simp only [ssimPixel, ssimC2, claimSsimD]
  have h1 : ((a - b) * -(a - b) + 1 : ℚ) = 1 - (a - b) ^ 2 := by ring
  have h3 : (c - a * a + (d - b * b) + (9 : ℚ) / 10000) =
      c - a ^ 2 + (d - b ^ 2) + 9 / 10000 := by ring
  rw [h1, h3, max_comm]

theorem sqrt_sqrt_eq_rpow {x : ℝ} (hx : 0 ≤ x) :
    Real.sqrt (Real.sqrt x) = x ^ ((1 : ℝ) / 4) := by
  rw [Real.sqrt_eq_rpow, Real.sqrt_eq_rpow, ← Real.rpow_mul hx]
  norm_num

/-- C2: for every scale of dimensions `width × height` and input planes of
length `width·height` with every per-pixel denominator `den_s` nonzero, the
SSIM map computes per pixel `d = max(0, 1 - num_m·num_s/den_s)` with
`C2 = 9·10⁻⁴`, `num_m = 1 - (μ₁-μ₂)²`, `num_s = 2(σ₁₂-μ₁μ₂) + C2`,
`den_s = (σ₁²-μ₁²) + (σ₂²-μ₂²) + C2`, and returns for each channel the
aggregates `(Σ d)/N` and `⁴√((Σ d⁴)/N)` with `N = width·height`. -/
theorem c2_ssim_map_aggregates (width height : ℕ) (hw : 0 < width) (hh : 0 < height)
    (m1 m2 s11 s22 s12 : Planes ℚ)
    (hm1 : ∀ c : Fin 3, (m1.ch c).length = width * height)
    (hm2 : ∀ c : Fin 3, (m2.ch c).length = width * height)
    (hs11 : ∀ c : Fin 3, (s11.ch c).length = width * height)
    (hs22 : ∀ c : Fin 3, (s22.ch c).length = width * height)
    (hs12 : ∀ c : Fin 3, (s12.ch c).length = width * height)
    (hden : ∀ c : Fin 3, ∀ i < width * height,
      (s11.ch c).getD i 0 - ((m1.ch c).getD i 0) ^ 2 +
        ((s22.ch c).getD i 0 - ((m2.ch c).getD i 0) ^ 2) + 9 / 10000 ≠ 0) :
    ∀ c : Fin 3,
      (ssim_map width height (castPlanes m1) (castPlanes m2) (castPlanes s11)
          (castPlanes s22) (castPlanes s12) c).1 =
        (((∑ i ∈ Finset.range (width * height),
            claimSsimD ((m1.ch c).getD i 0) ((m2.ch c).getD i 0) ((s11.ch c).getD i 0)
              ((s22.ch c).getD i 0) ((s12.ch c).getD i 0)) / (width * height : ℚ) : ℚ) : ℝ) ∧
      (ssim_map width height (castPlanes m1) (castPlanes m2) (castPlanes s11)
          (castPlanes s22) (castPlanes s12) c).2 =
        (((∑ i ∈ Finset.range (width * height),
            claimSsimD ((m1.ch c).getD i 0) ((m2.ch c).getD i 0) ((s11.ch c).getD i 0)
              ((s22.ch c).getD i 0) ((s12.ch c).getD i 0) ^ 4) / (width * height : ℚ) : ℚ) : ℝ)
          ^ ((1 : ℝ) / 4) := by
  intro c
  have hdiv : width * height / width = height := Nat.mul_div_cancel_left height hw
  have hrows : ssimRows width ((castPlanes m1).ch c) ((castPlanes m2).ch c)
      ((castPlanes s11).ch c) ((castPlanes s22).ch c) ((castPlanes s12).ch c) = height := by
    rw [ssimRows]
    simp only [castPlanes_ch, List.length_map, hm1 c, hm2 c, hs11 c, hs22 c, hs12 c,
      hdiv, min_self]
  have hsum := ssimChannelSums_eq_sums width ((castPlanes m1).ch c) ((castPlanes m2).ch c)
    ((castPlanes s11).ch c) ((castPlanes s22).ch c) ((castPlanes s12).ch c)
  rw [hrows] at hsum
  simp only [castPlanes_ch, getD_map_cast, ssimPixel_cast, ssimPixel_eq_claim,
    ← Rat.cast_pow, ← Rat.cast_sum] at hsum
  have hflat1 := sum_range_mul_flatten
    (fun i => claimSsimD ((m1.ch c).getD i 0) ((m2.ch c).getD i 0) ((s11.ch c).getD i 0)
      ((s22.ch c).getD i 0) ((s12.ch c).getD i 0)) height width
  have hflat4 := sum_range_mul_flatten
    (fun i => claimSsimD ((m1.ch c).getD i 0) ((m2.ch c).getD i 0) ((s11.ch c).getD i 0)
      ((s22.ch c).getD i 0) ((s12.ch c).getD i 0) ^ 4) height width
  rw [hflat1, hflat4, Nat.mul_comm height width] at hsum
  constructor
  · simp only [ssim_map, castPlanes_ch]
    rw [hsum]
    push_cast
    ring
  · simp only [ssim_map, castPlanes_ch]
    rw [hsum]
    have hx : (1 / ((width * height : ℕ) : ℝ)) *
        ((∑ i ∈ Finset.range (width * height),
          claimSsimD ((m1.ch c).getD i 0) ((m2.ch c).getD i 0) ((s11.ch c).getD i 0)
            ((s22.ch c).getD i 0) ((s12.ch c).getD i 0) ^ 4 : ℚ) : ℝ) =
        (((∑ i ∈ Finset.range (width * height),
          claimSsimD ((m1.ch c).getD i 0) ((m2.ch c).getD i 0) ((s11.ch c).getD i 0)
            ((s22.ch c).getD i 0) ((s12.ch c).getD i 0) ^ 4) / (width * height : ℚ) : ℚ) : ℝ) := by
      push_cast
      ring
    rw [hx]
    refine sqrt_sqrt_eq_rpow ?_
    have hsnn : (0 : ℚ) ≤ ∑ i ∈ Finset.range (width * height),
        claimSsimD ((m1.ch c).getD i 0) ((m2.ch c).getD i 0) ((s11.ch c).getD i 0)
          ((s22.ch c).getD i 0) ((s12.ch c).getD i 0) ^ 4 :=
      Finset.sum_nonneg fun i _ => by positivity
    have hNnn : (0 : ℚ) ≤ (width * height : ℚ) := by positivity
    exact_mod_cast div_nonneg hsnn hNnn

/-- All-zero 1×1 plane triple used by witnesses. -/
def wPlane : Planes ℚ := { p0 := [0], p1 := [0], p2 := [0] }

theorem c2_ssim_map_aggregates_witness :
    (∀ c : Fin 3, ∀ i < 1 * 1,
      (wPlane.ch c).getD i 0 - ((wPlane.ch c).getD i 0) ^ 2 +
        ((wPlane.ch c).getD i 0 - ((wPlane.ch c).getD i 0) ^ 2) + 9 / 10000 ≠ (0 : ℚ)) ∧
    ∀ c : Fin 3,
      (ssim_map 1 1 (castPlanes wPlane) (castPlanes wPlane) (castPlanes wPlane)
          (castPlanes wPlane) (castPlanes wPlane) c).1 =
        (((∑ i ∈ Finset.range (1 * 1),
            claimSsimD ((wPlane.ch c).getD i 0) ((wPlane.ch c).getD i 0)
              ((wPlane.ch c).getD i 0) ((wPlane.ch c).getD i 0)
              ((wPlane.ch c).getD i 0)) / (((1 : ℕ) : ℚ) * ((1 : ℕ) : ℚ)) : ℚ) : ℝ) ∧
      (ssim_map 1 1 (castPlanes wPlane) (castPlanes wPlane) (castPlanes wPlane)
          (castPlanes wPlane) (castPlanes wPlane) c).2 =
        (((∑ i ∈ Finset.range (1 * 1),
            claimSsimD ((wPlane.ch c).getD i 0) ((wPlane.ch c).getD i 0)
              ((wPlane.ch c).getD i 0) ((wPlane.ch c).getD i 0)
              ((wPlane.ch c).getD i 0) ^ 4) / (((1 : ℕ) : ℚ) * ((1 : ℕ) : ℚ)) : ℚ) : ℝ)
          ^ ((1 : ℝ) / 4) :=
  ⟨by
    intro c i hi
    obtain rfl : i = 0 := by omega
    fin_cases c <;> norm_num [wPlane, Planes.ch],
    c2_ssim_map_aggregates 1 1 (by decide) (by decide) wPlane wPlane wPlane wPlane wPlane
      (by decide) (by decide) (by decide) (by decide) (by decide)
      (by
        intro c i hi
        obtain rfl : i = 0 := by omega
        fin_cases c <;> norm_num [wPlane, Planes.ch])⟩

theorem ssimPixel_self (a b : α) (hden : b - a * a + (b - a * a) + ssimC2 ≠ 0) :
    ssimPixel a a b b b = 0 := by
  simp only [ssimPixel]
  have e1 : ((a - a) * -(a - a) + 1 : α) = 1 := by ring
  have e2 : (2 * (b - a * a) + ssimC2 : α) = b - a * a + (b - a * a) + ssimC2 := by ring
  rw [e1, e2, one_mul, div_self hden]
  norm_num

theorem edgePixel_self (a b : α) : edgePixel a b a b = 0 := by
  rw [edgePixel, div_self (by positivity), sub_self]

/-- C10: when both images are identical — `ssim_map` receives `μ₂ = μ₁`,
`σ₂² = σ₁²`, `σ₁₂ = σ₁²` and `edge_diff_map` receives `img₂ = img₁`,
`μ₂ = μ₁` — and every per-pixel `den_s` is nonzero, every aggregate returned
by `ssim_map` (all six entries) and by `edge_diff_map` (all twelve entries)
is exactly `0`. -/
theorem c10_identical_images_zero_aggregates (width height : ℕ)
    (img1 mu1 s11 : Planes ℚ)
    (hmu : ∀ c : Fin 3, (mu1.ch c).length = width * height)
    (hs : ∀ c : Fin 3, (s11.ch c).length = width * height)
    (hden : ∀ c : Fin 3, ∀ i < width * height,
      (s11.ch c).getD i 0 - ((mu1.ch c).getD i 0) ^ 2 +
        ((s11.ch c).getD i 0 - ((mu1.ch c).getD i 0) ^ 2) + 9 / 10000 ≠ 0) :
    (∀ c : Fin 3,
      (ssim_map width height (castPlanes mu1) (castPlanes mu1) (castPlanes s11)
          (castPlanes s11) (castPlanes s11) c).1 = 0 ∧
      (ssim_map width height (castPlanes mu1) (castPlanes mu1) (castPlanes s11)
          (castPlanes s11) (castPlanes s11) c).2 = 0) ∧
    (∀ c : Fin 3,
      (edge_diff_map width height (castPlanes img1) (castPlanes mu1) (castPlanes img1)
          (castPlanes mu1) c).1 = 0 ∧
      (edge_diff_map width height (castPlanes img1) (castPlanes mu1) (castPlanes img1)
          (castPlanes mu1) c).2.1 = 0 ∧
      (edge_diff_map width height (castPlanes img1) (castPlanes mu1) (castPlanes img1)
          (castPlanes mu1) c).2.2.1 = 0 ∧
      (edge_diff_map width height (castPlanes img1) (castPlanes mu1) (castPlanes img1)
          (castPlanes mu1) c).2.2.2 = 0) := by
  constructor
  · intro c
    have hrows : ssimRows width ((castPlanes mu1).ch c) ((castPlanes mu1).ch c)
        ((castPlanes s11).ch c) ((castPlanes s11).ch c) ((castPlanes s11).ch c) =
          width * height / width := by
      rw [ssimRows]
      simp [castPlanes_ch, List.length_map, hmu c, hs c, min_self]
    have hz : ssimChannelSums width ((castPlanes mu1).ch c) ((castPlanes mu1).ch c)
        ((castPlanes s11).ch c) ((castPlanes s11).ch c) ((castPlanes s11).ch c) = (0, 0) := by
      rw [ssimChannelSums_eq_sums, hrows]
      simp only [Prod.mk.injEq]
      refine ⟨?_, ?_⟩ <;>
        · apply Finset.sum_eq_zero
          intro r hr
          apply Finset.sum_eq_zero
          intro x hx
          rw [Finset.mem_range] at hr hx
          have hi : r * width + x < width * height :=
            calc r * width + x < r * width + width := by omega
              _ = (r + 1) * width := by ring
              _ ≤ width * height / width * width :=
                  Nat.mul_le_mul_right width (by omega)
              _ ≤ width * height := Nat.div_mul_le_self _ _
          have hd := hden c (r * width + x) hi
          have heq : (s11.ch c).getD (r * width + x) 0 -
                ((mu1.ch c).getD (r * width + x) 0) ^ 2 +
                ((s11.ch c).getD (r * width + x) 0 -
                  ((mu1.ch c).getD (r * width + x) 0) ^ 2) + 9 / 10000 =
              (s11.ch c).getD (r * width + x) 0 -
                (mu1.ch c).getD (r * width + x) 0 * (mu1.ch c).getD (r * width + x) 0 +
                ((s11.ch c).getD (r * width + x) 0 -
                  (mu1.ch c).getD (r * width + x) 0 * (mu1.ch c).getD (r * width + x) 0) +
                ssimC2 := by
            rw [ssimC2]
            ring
          rw [heq] at hd
          simp only [castPlanes_ch, getD_map_cast, ssimPixel_cast]
          rw [ssimPixel_self _ _ hd]
          norm_num
    constructor
    · simp only [ssim_map, hz]
      simp
    · simp only [ssim_map, hz]
      simp
  · intro c
    have hz : edgeChannelSums width ((castPlanes img1).ch c) ((castPlanes mu1).ch c)
        ((castPlanes img1).ch c) ((castPlanes mu1).ch c) = (0, 0, 0, 0) := by
      rw [edgeChannelSums_eq_sums]
      simp only [Prod.mk.injEq]
      refine ⟨?_, ?_, ?_, ?_⟩ <;>
        · apply Finset.sum_eq_zero
          intro r hr
          apply Finset.sum_eq_zero
          intro x hx
          rw [edgePixel_self]
          norm_num
    refine ⟨?_, ?_, ?_, ?_⟩ <;>
      · simp only [edge_diff_map, hz]
        simp

theorem c10_identical_images_zero_aggregates_witness :
    (∀ c : Fin 3, ∀ i < 1 * 1,
      (wPlane.ch c).getD i 0 - ((wPlane.ch c).getD i 0) ^ 2 +
        ((wPlane.ch c).getD i 0 - ((wPlane.ch c).getD i 0) ^ 2) + 9 / 10000 ≠ (0 : ℚ)) ∧
    ((∀ c : Fin 3,
      (ssim_map 1 1 (castPlanes wPlane) (castPlanes wPlane) (castPlanes wPlane)
          (castPlanes wPlane) (castPlanes wPlane) c).1 = 0 ∧
      (ssim_map 1 1 (castPlanes wPlane) (castPlanes wPlane) (castPlanes wPlane)
          (castPlanes wPlane) (castPlanes wPlane) c).2 = 0) ∧
    (∀ c : Fin 3,
      (edge_diff_map 1 1 (castPlanes wPlane) (castPlanes wPlane) (castPlanes wPlane)
          (castPlanes wPlane) c).1 = 0 ∧
      (edge_diff_map 1 1 (castPlanes wPlane) (castPlanes wPlane) (castPlanes wPlane)
          (castPlanes wPlane) c).2.1 = 0 ∧
      (edge_diff_map 1 1 (castPlanes wPlane) (castPlanes wPlane) (castPlanes wPlane)
          (castPlanes wPlane) c).2.2.1 = 0 ∧
      (edge_diff_map 1 1 (castPlanes wPlane) (castPlanes wPlane) (castPlanes wPlane)
          (castPlanes wPlane) c).2.2.2 = 0)) :=
  ⟨by
    intro c i hi
    obtain rfl : i = 0 := by omega
    fin_cases c <;> norm_num [wPlane, Planes.ch],
    c10_identical_images_zero_aggregates 1 1 wPlane wPlane wPlane (by decide) (by decide)
      (by
        intro c i hi
        obtain rfl : i = 0 := by omega
        fin_cases c <;> norm_num [wPlane, Planes.ch])⟩

/-! ## Full pipeline: precomputed reference vs one-shot (claims C1, C5, C6) -/

/-- `yuvxyb::LinearRgb`: row-major `[f32; 3]` pixels with dimensions. -/
structure LinearRgb (α : Type) where
  data : List (α × α × α)
  width : ℕ
  height : ℕ

/-- Pixel access with the zero contribution of out-of-image pixels
(spec §4.2). -/
def pixelAt (img : LinearRgb ℚ) (x y : ℕ) : ℚ × ℚ × ℚ :=
  if x < img.width ∧ y < img.height then img.data.getD (y * img.width + x) (0, 0, 0)
  else (0, 0, 0)

/-- Modelled from the spec: `downscale_by_2` lives in the crate root (absent
from src/).  §4.2: output dimensions `(⌈w/2⌉, ⌈h/2⌉)`; each output pixel is
the mean of its 2×2 block, dividing by 4 even at clipped edges, with pixels
outside the image contributing zero. -/
def downscale_by_2 (img : LinearRgb ℚ) : LinearRgb ℚ :=
  let ow := (img.width + 1) / 2
  let oh := (img.height + 1) / 2
  { width := ow
    height := oh
    data := (List.range (ow * oh)).map (fun (i : ℕ) =>
      let ox := i % ow
      let oy := i / ow
      let p00 := pixelAt img (2 * ox) (2 * oy)
      let p01 := pixelAt img (2 * ox + 1) (2 * oy)
      let p10 := pixelAt img (2 * ox) (2 * oy + 1)
      let p11 := pixelAt img (2 * ox + 1) (2 * oy + 1)
      ((p00.1 + p01.1 + p10.1 + p11.1) / 4,
        (p00.2.1 + p01.2.1 + p10.2.1 + p11.2.1) / 4,
        (p00.2.2 + p01.2.2 + p10.2.2 + p11.2.2) / 4)) }

theorem downscale_width (img : LinearRgb ℚ) :
    (downscale_by_2 img).width = (img.width + 1) / 2 := rfl

theorem downscale_height (img : LinearRgb ℚ) :
    (downscale_by_2 img).height = (img.height + 1) / 2 := rfl

/-- Modelled from the spec: `make_positive_xyb` lives in the crate root
(absent from src/).  §4.3 positivity remap: `B' = (B - Y) + 0.55`,
`X' = 14·X + 0.42`, `Y' = Y + 0.01`. -/
noncomputable def make_positive_xyb (img : List (ℝ × ℝ × ℝ)) : List (ℝ × ℝ × ℝ) :=
  img.map (fun p => (14 * p.1 + 0.42, p.2.1 + 0.01, p.2.2 - p.2.1 + 0.55))

/-- Modelled from the spec: `xyb_to_planar` lives in the crate root (absent
from src/).  §4.4: de-interleave into three planes, row-major order
preserved. -/
noncomputable def xyb_to_planar (img : List (ℝ × ℝ × ℝ)) : Planes ℝ :=
  { p0 := img.map (fun p => p.1)
    p1 := img.map (fun p => p.2.1)
    p2 := img.map (fun p => p.2.2) }

/-- `image_multiply_simd` (`simd_ops.rs:355-416`): elementwise product per
channel; the 16-lane blocks and the scalar tail compute the same products. -/
def image_multiply (a b : Planes α) : Planes α :=
  { p0 := List.zipWith (· * ·) a.p0 b.p0
    p1 := List.zipWith (· * ·) a.p1 b.p1
    p2 := List.zipWith (· * ·) a.p2 b.p2 }

/-- One step of the vertical IIR recurrence of
`SimdGaussian::vertical_pass_simd` (`blur/simd_gaussian.rs:269-275` per
lane; identically the scalar tail, lines 347-361): with `sum` the
zero-padded top+bottom sample,
`out_k = sum·VERT_MUL_IN_k - (prev_k·VERT_MUL_PREV_k + prev2_k)`.  In the
source the top guard is `top ≥ 0 && top·width+i+3 < len` and the bottom
guard `bottom·width+i+3 < len` (scalar tail: `bottom < height`); for a
column inside the plane both are the two-sided range check of `sampleAt`. -/
def vStep (c : GaussConsts α) (col : List α) (s : RowState α) (n : ℤ) : RowState α :=
  let sum := sampleAt col (n - (RADIUS : ℤ) - 1) + sampleAt col (n + (RADIUS : ℤ) - 1)
  let out1 := sum * c.vert_mul_in_1 - (s.prev1 * c.vert_mul_prev_1 + s.prev2_1)
  let out3 := sum * c.vert_mul_in_3 - (s.prev3 * c.vert_mul_prev_3 + s.prev2_3)
  let out5 := sum * c.vert_mul_in_5 - (s.prev5 * c.vert_mul_prev_5 + s.prev2_5)
  { prev1 := out1, prev3 := out3, prev5 := out5
    prev2_1 := s.prev1, prev2_3 := s.prev3, prev2_5 := s.prev5
    out := if 0 ≤ n then s.out ++ [out1 + out3 + out5] else s.out }

/-- One column of the vertical pass: the scan runs `n = -4 … height - 1`
over the column's samples. -/
def verticalCol (c : GaussConsts α) (col : List α) (height : ℕ) : List α :=
  ((List.range (height + 4)).foldl (fun s (j : ℕ) => vStep c col s ((j : ℤ) - 4)) hInit).out

/-- Column `i` of a row-major plane. -/
def colOf (plane : List α) (width height i : ℕ) : List α :=
  (List.range height).map (fun (y : ℕ) => plane.getD (y * width + i) 0)

/-- Row `y` of a row-major plane. -/
def rowOf (plane : List α) (width y : ℕ) : List α :=
  (plane.drop (y * width)).take width

/-- `SimdGaussian::blur_single_plane` (`blur/simd_gaussian.rs:37-48`):
horizontal pass on every row into a temp plane, then the vertical pass down
every column.  The SIMD column grouping (128/32/4 columns plus a scalar
tail, `vertical_pass_simd_chunked`) carries independent per-column state, so
in exact arithmetic it equals the per-column scan. -/
def blurPlane (c : GaussConsts α) (plane : List α) (width height : ℕ) : List α :=
  let temp := ((List.range height).map (fun (y : ℕ) =>
    horizontalRow c (rowOf plane width y) width)).flatten
  (List.range (width * height)).map (fun (idx : ℕ) =>
    (verticalCol c (colOf temp width height (idx % width)) height).getD (idx / width) 0)

/-- `Blur::blur` (`blur/mod.rs:111-117`): blur each of the three planes. -/
def blurPlanes (c : GaussConsts α) (p : Planes α) (width height : ℕ) : Planes α :=
  { p0 := blurPlane c p.p0 width height
    p1 := blurPlane c p.p1 width height
    p2 := blurPlane c p.p2 width height }

/-- `Ssimulacra2Error`: the variants reachable from the precompute path. -/
inductive Ssimulacra2Error : Type
  | LinearRgbConversionFailed
  | InvalidImageSize
  | NonMatchingImageDimensions
deriving DecidableEq

/-- `MsssimScale`: one scale's six SSIM aggregates and twelve edge-diff
aggregates. -/
structure MsssimScale where
  avg_ssim : Fin 3 → ℝ × ℝ
  avg_edgediff : Fin 3 → ℝ × ℝ × ℝ × ℝ

/-- Modelled from the spec: `Msssim::score` lives in the crate root (absent
from src/).  §4.6 "Final score": the product over scales and channels of the
quartic-mean SSIM entries, the product of
`min(artifact quartic mean, detail quartic mean)`, both raised to
`1/(3L)`, the larger of the two, and `max(-500, 100·(ssim - 1))`. -/
noncomputable def msssimScore (scales : List MsssimScale) : ℝ :=
  let L := scales.length
  let ssim := (scales.map (fun s => ∏ ch : Fin 3, (s.avg_ssim ch).2)).prod
  let ssim_max := (scales.map (fun s =>
    ∏ ch : Fin 3, min (s.avg_edgediff ch).2.1 (s.avg_edgediff ch).2.2.2)).prod
  let g : ℝ := ((3 * L : ℕ) : ℝ)⁻¹
  max (-500) (100 * (max (ssim ^ g) (ssim_max ^ g) - 1))

/-- `ScaleData` (`precompute.rs:45-53`). -/
structure ScaleData where
  img1_planar : Planes ℝ
  mu1 : Planes ℝ
  sigma1_sq : Planes ℝ

/-- `Ssim2Reference` (`precompute.rs:63-68`). -/
structure Ssim2Reference where
  scales : List ScaleData
  original_width : ℕ
  original_height : ℕ

/-- The XYB planar form of one scale's image: `Xyb::from` (the in-source
transform of `xyb_simd.rs`), `make_positive_xyb`, `xyb_to_planar`
(`precompute.rs:117-120`). -/
noncomputable def xybPlanar (img : LinearRgb ℚ) : Planes ℝ :=
  xyb_to_planar (make_positive_xyb (linear_rgb_to_xyb img.data))

/-- The per-scale reference data of `Ssim2Reference::new`
(`precompute.rs:117-133`): planar XYB, `mu1 = blur(img1)`,
`sigma1_sq = blur(img1·img1)`. -/
noncomputable def mkScaleData (c : GaussConsts ℝ) (img : LinearRgb ℚ) : ScaleData :=
  let planar := xybPlanar img
  { img1_planar := planar
    mu1 := blurPlanes c planar img.width img.height
    sigma1_sq := blurPlanes c (image_multiply planar planar) img.width img.height }

/-- The scale loop of `Ssim2Reference::new` (`precompute.rs:101-134`): break
when the incoming dimensions drop below 8, downscale from scale 1 on, then
process the (possibly downscaled) image. -/
noncomputable def newScales (c : GaussConsts ℝ) :
    ℕ → LinearRgb ℚ → Bool → List ScaleData
  | 0, _, _ => []
  | fuel + 1, img, first =>
    if img.width < 8 ∨ img.height < 8 then []
    else
      mkScaleData c (if first then img else downscale_by_2 img)
        :: newScales c fuel (if first then img else downscale_by_2 img) false

/-- `Ssim2Reference::new` (`precompute.rs:76-141`), on an already-converted
`LinearRgb` input (the claims condition on successful conversion). -/
noncomputable def Ssim2Reference.new (c : GaussConsts ℝ) (img : LinearRgb ℚ) :
    Except Ssimulacra2Error Ssim2Reference :=
  if img.width < 8 ∨ img.height < 8 then .error .InvalidImageSize
  else .ok { scales := newScales c NUM_SCALES img true
             original_width := img.width
             original_height := img.height }

/-- One scale of `Ssim2Reference::compare` (`precompute.rs:190-229`): the
distorted side's planes and blurs, the cross term, and the two reducers fed
with the cached `mu1` and `sigma1_sq`. -/
noncomputable def scaleRecord (c : GaussConsts ℝ) (sd : ScaleData) (img2 : LinearRgb ℚ) :
    MsssimScale :=
  let img2_planar := xybPlanar img2
  let mu2 := blurPlanes c img2_planar img2.width img2.height
  let sigma2_sq := blurPlanes c (image_multiply img2_planar img2_planar) img2.width img2.height
  let sigma12 := blurPlanes c (image_multiply sd.img1_planar img2_planar) img2.width img2.height
  { avg_ssim := ssim_map img2.width img2.height sd.mu1 mu2 sd.sigma1_sq sigma2_sq sigma12
    avg_edgediff := edge_diff_map img2.width img2.height sd.img1_planar sd.mu1 img2_planar mu2 }

/-- The scale loop of `Ssim2Reference::compare` (`precompute.rs:174-230`):
iterate over the cached scales, breaking when the distorted chain's
dimensions drop below 8, downscaling from scale 1 on. -/
noncomputable def compareScales (c : GaussConsts ℝ) :
    List ScaleData → LinearRgb ℚ → Bool → List MsssimScale
  | [], _, _ => []
  | sd :: rest, img, first =>
    if img.width < 8 ∨ img.height < 8 then []
    else
      scaleRecord c sd (if first then img else downscale_by_2 img)
        :: compareScales c rest (if first then img else downscale_by_2 img) false

/-- `Ssim2Reference::compare` (`precompute.rs:151-233`), on an
already-converted input. -/
noncomputable def Ssim2Reference.compare (c : GaussConsts ℝ) (r : Ssim2Reference)
    (img2 : LinearRgb ℚ) : Except Ssimulacra2Error ℝ :=
  if img2.width ≠ r.original_width ∨ img2.height ≠ r.original_height then
    .error .NonMatchingImageDimensions
  else .ok (msssimScore (compareScales c r.scales img2 true))

/-- One scale of the one-shot pipeline: the reference side's planes and
blurs computed fresh, plus everything the compare side computes
(spec §2, §4.6: five blurred planes per pair, then the two reducers). -/
noncomputable def fullScaleRecord (c : GaussConsts ℝ) (i1 i2 : LinearRgb ℚ) : MsssimScale :=
  scaleRecord c (mkScaleData c i1) i2

/-- Modelled from the spec: the scale loop of `compute_frame_ssimulacra2`
(crate root, absent from src/).  Per §2 both images flow through the same
per-scale pipeline C3→C4→C5→C6 with at most six scales; the break and
downscale placement mirror the in-source precompute loops, with which the
crate's own `test_precompute_matches_full_compute` requires the one-shot
path to agree. -/
noncomputable def oneShotScales (c : GaussConsts ℝ) :
    ℕ → LinearRgb ℚ → LinearRgb ℚ → Bool → List MsssimScale
  | 0, _, _, _ => []
  | fuel + 1, i1, i2, first =>
    if i1.width < 8 ∨ i1.height < 8 then []
    else
      fullScaleRecord c (if first then i1 else downscale_by_2 i1)
          (if first then i2 else downscale_by_2 i2)
        :: oneShotScales c fuel (if first then i1 else downscale_by_2 i1)
            (if first then i2 else downscale_by_2 i2) false

/-- Modelled from the spec: `compute_frame_ssimulacra2` (crate root, absent
from src/): reject a too-small reference and mismatched dimensions
(§4.1/§6/§7), then reduce the multiscale summary to one score (§4.6). -/
noncomputable def compute_frame_ssimulacra2 (c : GaussConsts ℝ) (i1 i2 : LinearRgb ℚ) :
    Except Ssimulacra2Error ℝ :=
  if i1.width < 8 ∨ i1.height < 8 then .error .InvalidImageSize
  else if i2.width ≠ i1.width ∨ i2.height ≠ i1.height then
    .error .NonMatchingImageDimensions
  else .ok (msssimScore (oneShotScales c NUM_SCALES i1 i2 true))

theorem newScales_succ (c : GaussConsts ℝ) (fuel : ℕ) (img : LinearRgb ℚ) (first : Bool) :
    newScales c (fuel + 1) img first =
      if img.width < 8 ∨ img.height < 8 then []
      else
        mkScaleData c (if first then img else downscale_by_2 img)
          :: newScales c fuel (if first then img else downscale_by_2 img) false := rfl

theorem compareScales_cons (c : GaussConsts ℝ) (sd : ScaleData) (rest : List ScaleData)
    (img : LinearRgb ℚ) (first : Bool) :
    compareScales c (sd :: rest) img first =
      if img.width < 8 ∨ img.height < 8 then []
      else
        scaleRecord c sd (if first then img else downscale_by_2 img)
          :: compareScales c rest (if first then img else downscale_by_2 img) false := rfl

theorem oneShotScales_succ (c : GaussConsts ℝ) (fuel : ℕ) (i1 i2 : LinearRgb ℚ)
    (first : Bool) :
    oneShotScales c (fuel + 1) i1 i2 first =
      if i1.width < 8 ∨ i1.height < 8 then []
      else
        fullScaleRecord c (if first then i1 else downscale_by_2 i1)
            (if first then i2 else downscale_by_2 i2)
          :: oneShotScales c fuel (if first then i1 else downscale_by_2 i1)
              (if first then i2 else downscale_by_2 i2) false := rfl

/-- The compare loop over the precomputed scales produces exactly the
records of the one-shot loop, for distorted inputs of matching
dimensions. -/
theorem compareScales_eq_oneShot (c : GaussConsts ℝ) (fuel : ℕ) :
    ∀ (i1 i2 : LinearRgb ℚ) (first : Bool),
      i2.width = i1.width → i2.height = i1.height →
      compareScales c (newScales c fuel i1 first) i2 first =
        oneShotScales c fuel i1 i2 first := by
  induction fuel with
  | zero => intro i1 i2 first hw hh; rfl
  | succ fuel ih =>
      intro i1 i2 first hw hh
      by_cases hd : i1.width < 8 ∨ i1.height < 8
      · rw [newScales_succ, if_pos hd, oneShotScales_succ, if_pos hd]
        rfl
      · have hd2 : ¬(i2.width < 8 ∨ i2.height < 8) := by rw [hw, hh]; exact hd
        rw [newScales_succ, if_neg hd, compareScales_cons, if_neg hd2,
          oneShotScales_succ, if_neg hd]
        congr 1
        apply ih
        · cases first <;> simp [downscale_width, hw]
        · cases first <;> simp [downscale_height, hh]

/-- C1: for every reference and distorted image of the same dimensions (both
already converted to linear RGB), the precomputed path
`Ssim2Reference::new` followed by `compare` returns exactly the same result
as the one-shot full computation: caching the reference's planar XYB, `mu1`
and `sigma1_sq` at every scale does not change the score. -/
theorem c1_precompute_matches_one_shot (c : GaussConsts ℝ) (i1 i2 : LinearRgb ℚ)
    (hw : i2.width = i1.width) (hh : i2.height = i1.height) :
    (Ssim2Reference.new c i1).bind (fun r => Ssim2Reference.compare c r i2) =
      compute_frame_ssimulacra2 c i1 i2 := by
  rw [Ssim2Reference.new, compute_frame_ssimulacra2]
  by_cases hd : i1.width < 8 ∨ i1.height < 8
  · rw [if_pos hd, if_pos hd]
    rfl
  · rw [if_neg hd, if_neg hd,
      if_neg (by simp [hw, hh] : ¬(i2.width ≠ i1.width ∨ i2.height ≠ i1.height))]
    show Ssim2Reference.compare c _ i2 = _
    rw [Ssim2Reference.compare]
    rw [if_neg (by simp [hw, hh] : ¬(i2.width ≠ i1.width ∨ i2.height ≠ i1.height))]
    rw [compareScales_eq_oneShot c NUM_SCALES i1 i2 true hw hh]

/-- Concrete real coefficient values used by the witnesses below. -/
noncomputable def gcwR : GaussConsts ℝ :=
  { mul_in_1 := 1, mul_in_3 := 1, mul_in_5 := 1
    mul_prev_1 := 1, mul_prev_3 := 1, mul_prev_5 := 1
    mul_prev2_1 := 1, mul_prev2_3 := 1, mul_prev2_5 := 1
    vert_mul_in_1 := 1, vert_mul_in_3 := 1, vert_mul_in_5 := 1
    vert_mul_prev_1 := 1, vert_mul_prev_3 := 1, vert_mul_prev_5 := 1 }

/-- 8×8 all-ones reference image used by the witnesses below. -/
def img8w : LinearRgb ℚ :=
  { data := List.replicate 64 (1, 1, 1), width := 8, height := 8 }

/-- 8×8 all-zeros distorted image used by the witnesses below. -/
def img8z : LinearRgb ℚ :=
  { data := List.replicate 64 (0, 0, 0), width := 8, height := 8 }

theorem c1_precompute_matches_one_shot_witness :
    (img8z.width = img8w.width ∧ img8z.height = img8w.height) ∧
      (Ssim2Reference.new gcwR img8w).bind
          (fun r => Ssim2Reference.compare gcwR r img8z) =
        compute_frame_ssimulacra2 gcwR img8w img8z :=
  ⟨⟨rfl, rfl⟩, c1_precompute_matches_one_shot gcwR img8w img8z rfl rfl⟩

/-- C5: for every distorted input that converts successfully to linear RGB,
`Ssim2Reference::compare` returns the dimension-mismatch error (and no
score) if and only if the distorted image's width or height differs from the
original reference's width or height. -/
theorem c5_compare_dimension_mismatch (c : GaussConsts ℝ) (r : Ssim2Reference)
    (img2 : LinearRgb ℚ) :
    Ssim2Reference.compare c r img2 =
        Except.error Ssimulacra2Error.NonMatchingImageDimensions ↔
      (img2.width ≠ r.original_width ∨ img2.height ≠ r.original_height) := by
  rw [Ssim2Reference.compare]
  by_cases hd : img2.width ≠ r.original_width ∨ img2.height ≠ r.original_height
  · simp [hd]
  · simp [hd]

/-- C6: for every source input that converts successfully to linear RGB,
`Ssim2Reference::new` returns `InvalidImageSize` if and only if the
converted image's scale-0 width < 8 or height < 8; otherwise it returns a
reference recording the original width and height. -/
theorem c6_new_size_check (c : GaussConsts ℝ) (img : LinearRgb ℚ) :
    (Ssim2Reference.new c img = Except.error Ssimulacra2Error.InvalidImageSize ↔
      (img.width < 8 ∨ img.height < 8)) ∧
    ∀ r : Ssim2Reference, Ssim2Reference.new c img = Except.ok r →
      r.original_width = img.width ∧ r.original_height = img.height := by
  constructor
  · rw [Ssim2Reference.new]
    by_cases hd : img.width < 8 ∨ img.height < 8 <;> simp [hd]
  · intro r hr
    rw [Ssim2Reference.new] at hr
    by_cases hd : img.width < 8 ∨ img.height < 8
    · rw [if_pos hd] at hr
      exact absurd hr (by simp)
    · rw [if_neg hd] at hr
      injection hr with hre
      rw [← hre]
      exact ⟨rfl, rfl⟩

theorem c6_new_size_check_witness :
    (Ssim2Reference.new gcwR img8w = Except.error Ssimulacra2Error.InvalidImageSize ↔
      (img8w.width < 8 ∨ img8w.height < 8)) ∧
    ({ scales := newScales gcwR NUM_SCALES img8w true
       original_width := img8w.width
       original_height := img8w.height } : Ssim2Reference).original_width = img8w.width ∧
    ({ scales := newScales gcwR NUM_SCALES img8w true
       original_width := img8w.width
       original_height := img8w.height } : Ssim2Reference).original_height = img8w.height :=
  ⟨(c6_new_size_check gcwR img8w).1,
    ((c6_new_size_check gcwR img8w).2 _ rfl).1,
    ((c6_new_size_check gcwR img8w).2 _ rfl).2⟩
